import Mathlib

/-! Verification of the simple-http3 server core.

A shallow embedding, in Lean 4, of the core of the `simple-http3` repository:

* `crates/server/src/router.rs` — the `Router` (exact-match path table over a
  `HashMap<String, Handler>`), with REST and Stream handler variants;
* `crates/server/src/server.rs` — the request dispatcher
  (`handle_request`, `handle_rest_request`, `handle_not_found`);
* `crates/server/src/handlers.rs` — the streaming handlers `time_stream`
  and `counter_stream`;
* `crates/server/src/webtransport.rs` — the WebTransport session fan-in loop
  (`handle_session`) and the per-stream echo workers `echo_uni` / `echo_bidi`.

Async IO is embedded as traces: each handler is a pure function from its inputs
(and, where the source samples a wall clock, an abstract clock) to the ordered
list of stream operations it performs.  Virtual time advances only at `sleep`
calls and is recorded on each emitted event, which is exactly the timing
information the spec's pacing statements refer to.  Bytes are `List Nat`,
text payloads are `List Char` or `String` (Rust `String::len` is the UTF-8
byte length, embedded as `String.utf8ByteSize`).
-/

set_option maxRecDepth 8192

namespace Http3

/-! ## Router (crates/server/src/router.rs)

`Router` stores `routes: HashMap<String, Handler>`.  The hash map is embedded
as a key-unique association list: `insertRoute` replaces the value of an
existing key in place and appends a fresh key at the end, which reproduces the
observable `HashMap` contract (`insert` overwrites, `get` returns the value of
the unique entry for the key).  Handler payloads are type parameters `α`
(Rest) and `β` (Stream), standing for the boxed closures of the source. -/

/-- The `enum Handler` from router.rs: a REST handler or a streaming handler. -/
inductive Handler (α β : Type) where
  | Rest (h : α)
  | Stream (h : β)
deriving DecidableEq, Repr

/-- The `routes` hash map, embedded as a key-unique association list. -/
def RouteMap (α β : Type) : Type := List (String × Handler α β)

/-- Model of `HashMap::insert`: overwrite the entry for an existing key, otherwise
add a new entry. -/
def insertRoute {α β : Type} : RouteMap α β → String → Handler α β → RouteMap α β
  | [], p, h => [(p, h)]
  | (q, g) :: rest, p, h =>
      if q = p then (p, h) :: rest else (q, g) :: insertRoute rest p h

/-- Model of `HashMap::get`: the value of the unique entry for the key, if any. -/
def lookupRoute {α β : Type} : RouteMap α β → String → Option (Handler α β)
  | [], _ => none
  | (q, g) :: rest, p => if q = p then some g else lookupRoute rest p

/-- The `struct Router` from router.rs. -/
structure Router (α β : Type) where
  routes : RouteMap α β

/-- The constructor `Router::new`. -/
def Router.new {α β : Type} : Router α β := ⟨[]⟩

/-- The method `Router::route`: insert a `Handler::Rest` for `path` (builder style). -/
def Router.route {α β : Type} (r : Router α β) (path : String) (h : α) : Router α β :=
  ⟨insertRoute r.routes path (Handler.Rest h)⟩

/-- The method `Router::stream`: insert a `Handler::Stream` for `path` (builder style). -/
def Router.stream {α β : Type} (r : Router α β) (path : String) (h : β) : Router α β :=
  ⟨insertRoute r.routes path (Handler.Stream h)⟩

/-- The method `Router::get`: exact-match lookup of a path. -/
def Router.get {α β : Type} (r : Router α β) (path : String) : Option (Handler α β) :=
  lookupRoute r.routes path

/-- One registration step: a call to `Router::route` or `Router::stream`. -/
inductive Registration (α β : Type) where
  | route (path : String) (h : α)
  | stream (path : String) (h : β)
deriving DecidableEq, Repr

/-- The path a registration is made on. -/
def Registration.path {α β : Type} : Registration α β → String
  | .route p _ => p
  | .stream p _ => p

/-- The handler variant a registration installs. -/
def Registration.handler {α β : Type} : Registration α β → Handler α β
  | .route _ h => Handler.Rest h
  | .stream _ h => Handler.Stream h

/-- Apply one registration to a router. -/
def applyReg {α β : Type} (r : Router α β) : Registration α β → Router α β
  | .route p h => r.route p h
  | .stream p h => r.stream p h

/-- Build a router from `Router::new()` by a sequence of registrations. -/
def buildRouter {α β : Type} (regs : List (Registration α β)) : Router α β :=
  regs.foldl applyReg Router.new

/-- Number of entries of a route map whose key is `p`. -/
def countKey {α β : Type} (m : RouteMap α β) (p : String) : Nat :=
  m.countP (fun e => e.1 == p)

/-! ## Dispatcher (crates/server/src/server.rs)

`handle_request` looks up the request path in the router and dispatches:
a `Handler::Rest` goes through `handle_rest_request`, a `Handler::Stream`
takes over the raw stream, and an unmatched path goes through
`handle_not_found`.  The stream operations (`send_response`, `send_data`,
`finish`) are embedded as trace events; each `await?` on them is modelled in
the run where the IO succeeds, so a dispatch returns `Except.ok trace`
(mirroring `anyhow::Result<()>`) except where a Stream handler itself
returns an error. -/

/-- One operation performed on an h3 `RequestStream`, with the response
status, the response headers in the order the source sets them, and data
payloads of type `γ`. -/
inductive StreamEvent (γ : Type) where
  | sendResponse (status : Nat) (headers : List (String × String))
  | sendData (body : γ)
  | finish
deriving DecidableEq, Repr

/-- The `struct RestResponse` from router.rs: body string plus content type. -/
structure RestResponse where
  body : String
  contentType : String
deriving DecidableEq, Repr

/-- The constructor `RestResponse::text`. -/
def RestResponse.text (body : String) : RestResponse :=
  ⟨body, "text/plain"⟩

/-- The constructor `RestResponse::json`. -/
def RestResponse.json (body : String) : RestResponse :=
  ⟨body, "application/json"⟩

/-- A REST handler: `Fn(Request) -> RestResponse`, over an abstract request
type `Req`. -/
def RestHandlerFn (Req : Type) : Type := Req → RestResponse

/-- A stream handler: `Fn(Request, RequestStream) -> Result<()>`, embedded as
the trace of stream events it performs, or the error it returns. -/
def StreamHandlerFn (Req : Type) : Type := Req → Except String (List (StreamEvent String))

/-- The function `handle_rest_request` from server.rs: run the handler, then send one
response with status 200, the handler's content type and the body's byte
length as `content-length`, then send the body once, then finish. -/
def handle_rest_request {Req : Type} (req : Req) (handler : RestHandlerFn Req) :
    List (StreamEvent String) :=
  let resp := handler req
  [ StreamEvent.sendResponse 200
      [("content-type", resp.contentType),
       ("content-length", toString resp.body.utf8ByteSize)]
  , StreamEvent.sendData resp.body
  , StreamEvent.finish ]

/-- The fixed 404 body `\x7b"error": "Not Found"\x7d` from `handle_not_found`. -/
def notFoundBody : String := "\x7b\"error\": \"Not Found\"\x7d"

/-- The function `handle_not_found` from server.rs: one 404 response with content type
`application/json` and the fixed body, sent once, then finish. -/
def handle_not_found : List (StreamEvent String) :=
  [ StreamEvent.sendResponse 404
      [("content-type", "application/json"),
       ("content-length", toString notFoundBody.utf8ByteSize)]
  , StreamEvent.sendData notFoundBody
  , StreamEvent.finish ]

/-- The function `handle_request` from server.rs: route lookup and dispatch.  The `none`
branch is the NotFound outcome and produces the 404 trace as a normal
(`Except.ok`) result. -/
def handle_request {Req : Type}
    (router : Router (RestHandlerFn Req) (StreamHandlerFn Req))
    (req : Req) (path : String) : Except String (List (StreamEvent String)) :=
  match router.get path with
  | some (Handler.Rest handler) => Except.ok (handle_rest_request req handler)
  | some (Handler.Stream handler) => handler req
  | none => Except.ok handle_not_found

/-- Does a trace event send a response? -/
def isResponseEvent {γ : Type} : StreamEvent γ → Bool
  | .sendResponse _ _ => true
  | _ => false

/-- Does a trace event send data? -/
def isDataEvent {γ : Type} : StreamEvent γ → Bool
  | .sendData _ => true
  | _ => false

/-- Does a trace event finish the stream? -/
def isFinishEvent {γ : Type} : StreamEvent γ → Bool
  | .finish => true
  | _ => false


/-! ## Streaming handlers (crates/server/src/handlers.rs)

`time_stream` and `counter_stream` own the raw stream.  Their executions are
embedded as lists of timed events: virtual time in milliseconds starts at 0
and advances only at `tokio::time::sleep` calls, and each stream operation is
recorded with the virtual time at which it is issued.  The wall-clock values
the source formats into its frames (`chrono::Utc::now()`) are abstracted as a
clock function from virtual time to the formatted value. -/

/-- A stream operation together with the virtual time (ms) it is issued at.
Payloads are character lists, so that frame classifiers compute even when the
wall-clock text is abstract. -/
structure TimedEvent where
  time : Nat
  event : StreamEvent (List Char)
deriving DecidableEq, Repr

/-- The SSE frame `format!("event: time\ndata: \x7b\x7d\nid: \x7b\x7d\n\n", now, i)`
from `time_stream`. -/
def timeFrame (ts : List Char) (i : Nat) : List Char :=
  "event: time\ndata: ".toList ++ ts ++ "\nid: ".toList ++ (toString i).toList ++ "\n\n".toList

/-- The terminal SSE frame of `time_stream`. -/
def doneFrame : List Char := "event: done\ndata: stream complete\n\n".toList

/-- The `for i in 1..=5` loop of `time_stream`: send one time frame per
iteration, sleeping 1000 ms after every frame but the last; after the loop,
send the done frame and finish. -/
def timeLoop (clock : Nat → List Char) : List Nat → Nat → List TimedEvent
  | [], t => [⟨t, StreamEvent.sendData doneFrame⟩, ⟨t, StreamEvent.finish⟩]
  | i :: rest, t =>
      ⟨t, StreamEvent.sendData (timeFrame (clock t) i)⟩ ::
        timeLoop clock rest (if i < 5 then t + 1000 else t)

/-- The handler `time_stream` from handlers.rs: 200 response with `text/event-stream`,
then the 1..=5 loop, then done frame and finish. -/
def time_stream (clock : Nat → List Char) : List TimedEvent :=
  ⟨0, StreamEvent.sendResponse 200
      [("content-type", "text/event-stream"), ("cache-control", "no-cache")]⟩ ::
    timeLoop clock [1, 2, 3, 4, 5] 0

/-- One NDJSON line `format!(r#"\x7b"count": \x7b\x7d, "timestamp": \x7b\x7d\x7d"#, i, ts)`
plus the trailing newline, from `counter_stream`. -/
def countLine (i : Nat) (ts : Int) : List Char :=
  ("\x7b\"count\": " ++ toString i ++ ", \"timestamp\": " ++ toString ts ++ "\x7d\n").toList

/-- The `for i in 1..=10` loop of `counter_stream`: send one count line per
iteration, sleeping 500 ms after every line but the last; after the loop,
finish. -/
def counterLoop (tsClock : Nat → Int) : List Nat → Nat → List TimedEvent
  | [], t => [⟨t, StreamEvent.finish⟩]
  | i :: rest, t =>
      ⟨t, StreamEvent.sendData (countLine i (tsClock t))⟩ ::
        counterLoop tsClock rest (if i < 10 then t + 500 else t)

/-- The handler `counter_stream` from handlers.rs: 200 response with
`application/x-ndjson`, then the 1..=10 loop, then finish. -/
def counter_stream (tsClock : Nat → Int) : List TimedEvent :=
  ⟨0, StreamEvent.sendResponse 200 [("content-type", "application/x-ndjson")]⟩ ::
    counterLoop tsClock [1, 2, 3, 4, 5, 6, 7, 8, 9, 10] 0

/-- Classifier: a data frame starting with `event: time`. -/
def isTimeData : StreamEvent (List Char) → Bool
  | .sendData b => b.take 11 == "event: time".toList
  | _ => false

/-- Classifier: a data frame starting with `event: done`. -/
def isDoneData : StreamEvent (List Char) → Bool
  | .sendData b => b.take 11 == "event: done".toList
  | _ => false

/-- Classifier: a data frame starting with `\x7b"count": `. -/
def isCountData : StreamEvent (List Char) → Bool
  | .sendData b => b.take 10 == "\x7b\"count\": ".toList
  | _ => false

/-- Adjacent elements of the list are at least `gap` apart (used for emission
times, in ms). -/
def spacedBy (gap : Nat) : List Nat → Bool
  | [] => true
  | [_] => true
  | a :: b :: rest => decide (a + gap ≤ b) && spacedBy gap (b :: rest)

/-! ## WebTransport session (crates/server/src/webtransport.rs)

`handle_session` opens the welcome stream (the only fallible step that is
propagated with `?`), then runs a `tokio::select!` fan-in loop over the
datagram reader, the uni-stream acceptor and the bidi-stream acceptor.  The
loop is embedded as a function over the sequence of fan-in outcomes the three
sources deliver, producing the session's outbound actions.  Every error or
closed-source outcome only breaks the loop; the function then returns `Ok`. -/

/-- One outcome delivered by the fan-in sources of the session loop.
`sendFails` records whether the subsequent `send_datagram` call fails;
`openFails` records whether the `open_uni` call for the reply stream fails. -/
inductive FanInEvent where
  | datagramOk (payload : List Nat) (sendFails : Bool)
  | datagramErr
  | uniOk (id : Nat) (openFails : Bool)
  | uniNone
  | uniErr
  | bidiOk (id : Nat)
  | bidiRequest
  | bidiNone
  | bidiErr
deriving DecidableEq, Repr

/-- An outbound action of the session loop. -/
inductive SessionAction where
  | sendDatagramAttempt (payload : List Nat)
  | openUni (id : Nat)
  | spawnEchoUni (id : Nat)
  | spawnEchoBidi (id : Nat)
deriving DecidableEq, Repr

/-- One arm of the `tokio::select!` in `handle_session`: the actions taken
for the event, or `none` when the arm breaks the loop.  A failed
`send_datagram` is only logged (the attempt still happens, no retry); a
failed `open_uni` is only logged and the loop continues; an in-session HTTP
request (`AcceptedBi::Request`) is dropped and the loop continues. -/
def stepArm : FanInEvent → Option (List SessionAction)
  | .datagramOk d _ => some [SessionAction.sendDatagramAttempt d]
  | .datagramErr => none
  | .uniOk id false => some [SessionAction.openUni id, SessionAction.spawnEchoUni id]
  | .uniOk id true => some [SessionAction.openUni id]
  | .uniNone => none
  | .uniErr => none
  | .bidiOk id => some [SessionAction.spawnEchoBidi id]
  | .bidiRequest => some []
  | .bidiNone => none
  | .bidiErr => none

/-- The session fan-in loop: process events in order until an arm breaks. -/
def runLoop : List FanInEvent → List SessionAction
  | [] => []
  | e :: rest =>
      match stepArm e with
      | none => []
      | some acts => acts ++ runLoop rest

/-- The function `handle_session` from webtransport.rs: `open_bi` for the welcome stream is
the only step whose failure is propagated (`?`); once the loop is entered the
function always returns `Ok`. -/
def handle_session (welcomeOpenFails : Bool) (events : List FanInEvent) :
    Except String (List SessionAction) :=
  if welcomeOpenFails then Except.error "open_bi failed"
  else Except.ok (runLoop events)

/-- The datagram payload carried by a fan-in event, if any. -/
def datagramPayloadOf : FanInEvent → Option (List Nat)
  | .datagramOk d _ => some d
  | _ => none

/-- The payload of a datagram send attempt, if the action is one. -/
def sentDatagramOf : SessionAction → Option (List Nat)
  | .sendDatagramAttempt d => some d
  | _ => none

/-- Does the select arm for this event continue the loop? -/
def continuesLoop (e : FanInEvent) : Bool :=
  (stepArm e).isSome

/-! ## Echo workers (crates/server/src/webtransport.rs)

`echo_bidi` loops on `recv.read(&mut buf)` over a 4096-byte buffer; its input
is embedded as the sequence of read outcomes, its output as the sequence of
write/flush operations.  `echo_uni` first reads the inbound stream to
completion (`read_to_end`), then replays the accumulated bytes in 64-byte
chunks with a 10 ms sleep before each chunk; its output is the list of writes
tagged with their virtual emission time. -/

/-- The literal `b"[echo] "` written before each echoed read, as bytes. -/
def echoTagBytes : List Nat := "[echo] ".toList.map Char.toNat

/-- Outcome of one `recv.read(&mut buf)` call: `ok []` is a zero-length read
(peer half-close). -/
inductive ReadResult where
  | ok (bytes : List Nat)
  | err
deriving DecidableEq, Repr

/-- One operation on the send half of a sub-stream. -/
inductive WriteEvent where
  | write (bytes : List Nat)
  | flush
deriving DecidableEq, Repr

/-- The worker `echo_bidi` from webtransport.rs: for each nonempty read of bytes `B`,
write `b"[echo] "`, write `B`, flush; stop at a zero-length read or a read
error. -/
def echo_bidi : List ReadResult → List WriteEvent
  | [] => []
  | ReadResult.ok [] :: _ => []
  | ReadResult.ok bs :: rest =>
      WriteEvent.write echoTagBytes :: WriteEvent.write bs :: WriteEvent.flush ::
        echo_bidi rest
  | ReadResult.err :: _ => []

/-- Number of bytes delivered by a read outcome. -/
def readLen : ReadResult → Nat
  | .ok bs => bs.length
  | .err => 0

/-- The bytes delivered by a read outcome. -/
def readBytes : ReadResult → List Nat
  | .ok bs => bs
  | .err => []

/-- Does the `echo_bidi` loop continue after this read outcome? -/
def continuesRead : ReadResult → Bool
  | .ok bs => !bs.isEmpty
  | .err => false

/-- Model of `slice::chunks(n)`: non-overlapping, in-order chunks of length `n`, the
last one possibly shorter (total when `n` is positive; the source calls it
with `n = 64`). -/
def chunksOf {γ : Type} (n : Nat) : List γ → List (List γ)
  | [] => []
  | x :: xs => (x :: xs.take (n - 1)) :: chunksOf n (xs.drop (n - 1))
termination_by l => l.length
decreasing_by simp [List.length_drop]; omega

/-- The replay loop of `echo_uni`: sleep 10 ms, then write the next chunk. -/
def replayChunks (t : Nat) : List (List Nat) → List (Nat × List Nat)
  | [] => []
  | c :: rest => (t + 10, c) :: replayChunks (t + 10) rest

/-- The worker `echo_uni` from webtransport.rs: after reading the whole inbound stream
into `b`, write it back in 64-byte chunks, each preceded by a 10 ms sleep.
Each element of the result is (virtual emission time in ms, chunk). -/
def echo_uni (b : List Nat) : List (Nat × List Nat) :=
  replayChunks 0 (chunksOf 64 b)

/-! ### Router lemmas -/

lemma applyReg_routes {α β : Type} (r : Router α β) (reg : Registration α β) :
    (applyReg r reg).routes = insertRoute r.routes reg.path reg.handler := by
  cases reg <;> rfl

lemma lookup_insert_self {α β : Type} :
    ∀ (m : RouteMap α β) (p : String) (h : Handler α β),
      lookupRoute (insertRoute m p h) p = some h := by
  intro m
  induction m with
  | nil => intro p h; simp [insertRoute, lookupRoute]
  | cons e rest ih =>
      intro p h
      obtain ⟨q, g⟩ := e
      by_cases hqp : q = p
      · simp [insertRoute, hqp, lookupRoute]
      · simp [insertRoute, hqp, lookupRoute, ih]

lemma lookup_insert_ne {α β : Type} :
    ∀ (m : RouteMap α β) (p q : String) (h : Handler α β), q ≠ p →
      lookupRoute (insertRoute m p h) q = lookupRoute m q := by
  intro m
  induction m with
  | nil => intro p q h hne; simp [insertRoute, lookupRoute, Ne.symm hne]
  | cons e rest ih =>
      intro p q h hne
      obtain ⟨k, g⟩ := e
      by_cases hkp : k = p
      · subst hkp
        simp [insertRoute, lookupRoute, Ne.symm hne]
      · simp only [insertRoute, if_neg hkp, lookupRoute]
        by_cases hkq : k = q
        · simp [hkq]
        · simp [hkq, ih _ _ _ hne]

lemma get_foldl_not_mem {α β : Type} :
    ∀ (regs : List (Registration α β)) (m : Router α β) (p : String),
      p ∉ regs.map Registration.path →
      (regs.foldl applyReg m).get p = m.get p := by
  intro regs
  induction regs with
  | nil => intro m p _; rfl
  | cons a rest ih =>
      intro m p hp
      simp only [List.map_cons, List.mem_cons, not_or] at hp
      rw [List.foldl_cons, ih _ _ hp.2]
      show lookupRoute (applyReg m a).routes p = lookupRoute m.routes p
      rw [applyReg_routes]
      exact lookup_insert_ne _ _ _ _ hp.1

lemma get_foldl_mem {α β : Type} :
    ∀ (regs : List (Registration α β)) (m : Router α β) (r : Registration α β),
      r ∈ regs → (regs.map Registration.path).Nodup →
      (regs.foldl applyReg m).get r.path = some r.handler := by
  intro regs
  induction regs with
  | nil => intro m r hr; exact absurd hr (List.not_mem_nil r)
  | cons a rest ih =>
      intro m r hr hnd
      simp only [List.map_cons, List.nodup_cons] at hnd
      rcases List.mem_cons.mp hr with h | h
      · subst h
        rw [List.foldl_cons, get_foldl_not_mem rest _ _ hnd.1]
        show lookupRoute (applyReg m r).routes r.path = some r.handler
        rw [applyReg_routes]
        exact lookup_insert_self _ _ _
      · exact ih (applyReg m a) r h hnd.2

lemma countKey_insert_self {α β : Type} :
    ∀ (m : RouteMap α β) (p : String) (h : Handler α β),
      countKey m p ≤ 1 → countKey (insertRoute m p h) p = 1 := by
  intro m
  induction m with
  | nil => intro p h _; simp [countKey, insertRoute]
  | cons e rest ih =>
      intro p h hle
      obtain ⟨q, g⟩ := e
      by_cases hqp : q = p
      · subst hqp
        simp only [countKey, List.countP_cons, beq_self_eq_true, if_true] at hle
        simp only [insertRoute, if_pos rfl, countKey, List.countP_cons,
          beq_self_eq_true, if_true]
        omega
      · simp only [countKey, List.countP_cons, beq_iff_eq, if_neg hqp,
          Nat.add_zero] at hle
        simp only [insertRoute, if_neg hqp, countKey, List.countP_cons,
          beq_iff_eq, if_neg hqp, Nat.add_zero]
        exact ih p h hle

lemma countKey_insert_ne {α β : Type} :
    ∀ (m : RouteMap α β) (p q : String) (h : Handler α β), q ≠ p →
      countKey (insertRoute m p h) q = countKey m q := by
  intro m
  induction m with
  | nil =>
      intro p q h hne
      simp [countKey, insertRoute, List.countP_cons, beq_iff_eq, Ne.symm hne]
  | cons e rest ih =>
      intro p q h hne
      obtain ⟨k, g⟩ := e
      by_cases hkp : k = p
      · subst hkp
        simp [insertRoute, countKey, List.countP_cons, beq_iff_eq, Ne.symm hne]
      · have hrec := ih p q h hne
        simp only [countKey] at hrec
        simp [insertRoute, if_neg hkp, countKey, List.countP_cons, hrec]

lemma countKey_foldl_le {α β : Type} :
    ∀ (regs : List (Registration α β)) (m : Router α β),
      (∀ q, countKey m.routes q ≤ 1) →
      ∀ q, countKey ((regs.foldl applyReg m).routes) q ≤ 1 := by
  intro regs
  induction regs with
  | nil => intro m hm q; exact hm q
  | cons a rest ih =>
      intro m hm q
      rw [List.foldl_cons]
      refine ih (applyReg m a) (fun q => ?_) q
      rw [applyReg_routes]
      by_cases hq : q = a.path
      · subst hq
        exact le_of_eq (countKey_insert_self _ _ _ (hm a.path))
      · rw [countKey_insert_ne _ _ _ _ hq]
        exact hm q

lemma countKey_buildRouter_le {α β : Type} (regs : List (Registration α β)) (q : String) :
    countKey (buildRouter regs).routes q ≤ 1 := by
  refine countKey_foldl_le regs Router.new (fun q => ?_) q
  simp [Router.new, countKey]

/-! ### Claims C1 and C2 -/

/-- C1. Router resolution (`Router::get`) is exact-match lookup: for every
set of registered (path, handler) pairs with pairwise distinct paths, `get` on
a registered path returns exactly the handler registered for that path, and
`get` of any path that was never registered returns `none` (the `NotFound`
outcome, an `Option` value rather than an error). -/
theorem spec_C1 {α β : Type} (regs : List (Registration α β))
    (hnodup : (regs.map Registration.path).Nodup) :
    (∀ r ∈ regs, (buildRouter regs).get r.path = some r.handler)
    ∧ (∀ p, p ∉ regs.map Registration.path → (buildRouter regs).get p = none) := by
  constructor
  · intro r hr
    exact get_foldl_mem regs Router.new r hr hnodup
  · intro p hp
    rw [buildRouter, get_foldl_not_mem regs Router.new p hp]
    rfl

/-- Witness for C1 at a concrete registration list. -/
theorem spec_C1_witness :
    (buildRouter [Registration.route "/" (1 : Nat), Registration.stream "/a" (2 : Nat)]).get "/a"
        = some (Handler.Stream 2)
    ∧ (buildRouter [Registration.route "/" (1 : Nat), Registration.stream "/a" (2 : Nat)]).get "/nope"
        = none := by
  have h := spec_C1 (α := Nat) (β := Nat)
    [Registration.route "/" 1, Registration.stream "/a" 2] (by decide)
  exact ⟨h.1 (Registration.stream "/a" 2) (by decide), h.2 "/nope" (by decide)⟩

/-- C2. Re-registering a path overwrites rather than duplicates: after any
prior registrations and then two successive registrations on the same path
`p` (either variant, either order), `get p` returns the last-registered
handler and the route table holds exactly one entry for `p`. -/
theorem spec_C2 {α β : Type} (regs : List (Registration α β)) (p : String)
    (r1 r2 : Registration α β) (h1 : r1.path = p) (h2 : r2.path = p) :
    (buildRouter (regs ++ [r1, r2])).get p = some r2.handler
    ∧ countKey (buildRouter (regs ++ [r1, r2])).routes p = 1 := by
  have hfold : buildRouter (regs ++ [r1, r2])
      = applyReg (applyReg (buildRouter regs) r1) r2 := by
    simp [buildRouter, List.foldl_append]
  have hbase : countKey (buildRouter regs).routes p ≤ 1 :=
    countKey_buildRouter_le regs p
  have hmid : countKey (applyReg (buildRouter regs) r1).routes p = 1 := by
    rw [applyReg_routes, h1]
    exact countKey_insert_self _ _ _ hbase
  constructor
  · rw [hfold]
    show lookupRoute (applyReg (applyReg (buildRouter regs) r1) r2).routes p = _
    rw [applyReg_routes, h2]
    exact lookup_insert_self _ _ _
  · rw [hfold, applyReg_routes, h2]
    exact countKey_insert_self _ _ _ (le_of_eq hmid)

/-- Witness for C2 at concrete registrations. -/
theorem spec_C2_witness :
    (buildRouter [Registration.route "/x" (1 : Nat), Registration.stream "/x" (2 : Nat)]).get "/x"
        = some (Handler.Stream 2)
    ∧ countKey (buildRouter [Registration.route "/x" (1 : Nat),
        Registration.stream "/x" (2 : Nat)]).routes "/x" = 1 := by
  have h := spec_C2 (α := Nat) (β := Nat) []
    "/x" (Registration.route "/x" 1) (Registration.stream "/x" 2) rfl rfl
  exact ⟨h.1, h.2⟩

/-- C3. For every request whose path resolves to a Rest handler, the
dispatcher produces (as a normal, non-error result) exactly one response with
status 200, content type as chosen by the handler and content length equal to
the byte length of the handler-produced body, writes that body exactly once
as data, and then finishes the stream exactly once, in that order. -/
theorem spec_C3 {Req : Type}
    (router : Router (RestHandlerFn Req) (StreamHandlerFn Req))
    (req : Req) (path : String) (handler : RestHandlerFn Req)
    (hres : router.get path = some (Handler.Rest handler)) :
    handle_request router req path = Except.ok (handle_rest_request req handler)
    ∧ handle_rest_request req handler =
        [ StreamEvent.sendResponse 200
            [("content-type", (handler req).contentType),
             ("content-length", toString (handler req).body.utf8ByteSize)]
        , StreamEvent.sendData (handler req).body
        , StreamEvent.finish ]
    ∧ (handle_rest_request req handler).countP isResponseEvent = 1
    ∧ (handle_rest_request req handler).countP isDataEvent = 1
    ∧ (handle_rest_request req handler).countP isFinishEvent = 1
    ∧ (handle_rest_request req handler).getLast? = some StreamEvent.finish := by
  refine ⟨?_, rfl, rfl, rfl, rfl, rfl⟩
  simp [handle_request, hres]

/-- Witness for C3: a concrete router whose only route is a Rest handler. -/
theorem spec_C3_witness :
    handle_request (Router.new.route "/" (fun (_ : Unit) => RestResponse.text "Hello from HTTP/3!"))
        () "/"
      = Except.ok (handle_rest_request () (fun (_ : Unit) => RestResponse.text "Hello from HTTP/3!")) := by
  exact (spec_C3 _ () "/" _
    (by simp [Router.get, Router.route, Router.new, insertRoute, lookupRoute])).1

/-- C4. For every request whose path does not resolve to any handler, the
dispatcher sends exactly one response with status 404, content type
`application/json` and the fixed body `\x7b"error": "Not Found"\x7d` (22 bytes),
then finishes the stream; the result is a normal `Except.ok`, not an error. -/
theorem spec_C4 {Req : Type}
    (router : Router (RestHandlerFn Req) (StreamHandlerFn Req))
    (req : Req) (path : String)
    (hres : router.get path = none) :
    handle_request router req path = Except.ok handle_not_found
    ∧ handle_not_found =
        [ StreamEvent.sendResponse 404
            [("content-type", "application/json"), ("content-length", "22")]
        , StreamEvent.sendData notFoundBody
        , StreamEvent.finish ]
    ∧ notFoundBody = "\x7b\"error\": \"Not Found\"\x7d"
    ∧ notFoundBody.utf8ByteSize = 22
    ∧ handle_not_found.countP isResponseEvent = 1
    ∧ handle_not_found.countP isDataEvent = 1
    ∧ handle_not_found.countP isFinishEvent = 1
    ∧ handle_not_found.getLast? = some StreamEvent.finish := by
  refine ⟨?_, by decide, rfl, by decide, rfl, rfl, rfl, rfl⟩
  simp [handle_request, hres]

/-- Witness for C4: the empty router never resolves, yielding the 404 trace. -/
theorem spec_C4_witness :
    handle_request (Router.new : Router (RestHandlerFn Unit) (StreamHandlerFn Unit)) () "/nope"
      = Except.ok handle_not_found := by
  exact (spec_C4 Router.new () "/nope" rfl).1

/-- C5. For every run of the `/stream/time` handler without a stream
error (abstracting only the wall-clock text): one 200 response with content
type `text/event-stream` first, then exactly 5 time frames with ids 1..5 in
order, consecutive frames 1000 ms apart, then exactly one done frame, then
exactly one finish with no further data.  The first conjunct is the complete
trace; the others state the exact-count and spacing consequences. -/
theorem spec_C5 (clock : Nat → List Char) :
    time_stream clock =
      [ ⟨0, StreamEvent.sendResponse 200
            [("content-type", "text/event-stream"), ("cache-control", "no-cache")]⟩
      , ⟨0, StreamEvent.sendData (timeFrame (clock 0) 1)⟩
      , ⟨1000, StreamEvent.sendData (timeFrame (clock 1000) 2)⟩
      , ⟨2000, StreamEvent.sendData (timeFrame (clock 2000) 3)⟩
      , ⟨3000, StreamEvent.sendData (timeFrame (clock 3000) 4)⟩
      , ⟨4000, StreamEvent.sendData (timeFrame (clock 4000) 5)⟩
      , ⟨4000, StreamEvent.sendData doneFrame⟩
      , ⟨4000, StreamEvent.finish⟩ ]
    ∧ (time_stream clock).countP (fun e => isResponseEvent e.event) = 1
    ∧ (time_stream clock).countP (fun e => isTimeData e.event) = 5
    ∧ ((time_stream clock).filter (fun e => isTimeData e.event)).map TimedEvent.time
        = [0, 1000, 2000, 3000, 4000]
    ∧ spacedBy 1000
        (((time_stream clock).filter (fun e => isTimeData e.event)).map TimedEvent.time) = true
    ∧ (time_stream clock).countP (fun e => isDoneData e.event) = 1
    ∧ (time_stream clock).countP (fun e => isFinishEvent e.event) = 1
    ∧ (time_stream clock).getLast? = some ⟨4000, StreamEvent.finish⟩ := by
  exact ⟨rfl, rfl, rfl, rfl, rfl, rfl, rfl, rfl⟩

/-- C6. For every run of the `/stream/counter` handler without a stream
error (abstracting only the sampled unix timestamps): one 200 response with
content type `application/x-ndjson` first, then exactly 10 count lines with
count values 1..10 in emission order, consecutive lines 500 ms apart, then
exactly one finish.  The first conjunct is the complete trace; the others
state the exact-count and spacing consequences. -/
theorem spec_C6 (tsClock : Nat → Int) :
    counter_stream tsClock =
      [ ⟨0, StreamEvent.sendResponse 200 [("content-type", "application/x-ndjson")]⟩
      , ⟨0, StreamEvent.sendData (countLine 1 (tsClock 0))⟩
      , ⟨500, StreamEvent.sendData (countLine 2 (tsClock 500))⟩
      , ⟨1000, StreamEvent.sendData (countLine 3 (tsClock 1000))⟩
      , ⟨1500, StreamEvent.sendData (countLine 4 (tsClock 1500))⟩
      , ⟨2000, StreamEvent.sendData (countLine 5 (tsClock 2000))⟩
      , ⟨2500, StreamEvent.sendData (countLine 6 (tsClock 2500))⟩
      , ⟨3000, StreamEvent.sendData (countLine 7 (tsClock 3000))⟩
      , ⟨3500, StreamEvent.sendData (countLine 8 (tsClock 3500))⟩
      , ⟨4000, StreamEvent.sendData (countLine 9 (tsClock 4000))⟩
      , ⟨4500, StreamEvent.sendData (countLine 10 (tsClock 4500))⟩
      , ⟨4500, StreamEvent.finish⟩ ]
    ∧ (counter_stream tsClock).countP (fun e => isResponseEvent e.event) = 1
    ∧ (counter_stream tsClock).countP (fun e => isCountData e.event) = 10
    ∧ ((counter_stream tsClock).filter (fun e => isCountData e.event)).map TimedEvent.time
        = [0, 500, 1000, 1500, 2000, 2500, 3000, 3500, 4000, 4500]
    ∧ spacedBy 500
        (((counter_stream tsClock).filter (fun e => isCountData e.event)).map TimedEvent.time)
        = true
    ∧ (counter_stream tsClock).countP (fun e => isFinishEvent e.event) = 1
    ∧ (counter_stream tsClock).getLast? = some ⟨4500, StreamEvent.finish⟩ := by
  exact ⟨rfl, rfl, rfl, rfl, rfl, rfl, rfl⟩

/-! ### Session loop lemmas -/

lemma runLoop_datagrams : ∀ events : List FanInEvent,
    (runLoop events).filterMap sentDatagramOf
      = (events.takeWhile continuesLoop).filterMap datagramPayloadOf := by
  intro events
  induction events with
  | nil => rfl
  | cons e rest ih =>
      cases e with
      | datagramOk d f =>
          simpa [runLoop, stepArm, continuesLoop, sentDatagramOf, datagramPayloadOf,
            List.takeWhile_cons, List.filterMap_cons] using ih
      | uniOk id f =>
          cases f <;>
            simpa [runLoop, stepArm, continuesLoop, sentDatagramOf, datagramPayloadOf,
              List.takeWhile_cons, List.filterMap_cons] using ih
      | bidiOk id =>
          simpa [runLoop, stepArm, continuesLoop, sentDatagramOf, datagramPayloadOf,
            List.takeWhile_cons, List.filterMap_cons] using ih
      | bidiRequest =>
          simpa [runLoop, stepArm, continuesLoop, sentDatagramOf, datagramPayloadOf,
            List.takeWhile_cons, List.filterMap_cons] using ih
      | datagramErr => rfl
      | uniNone => rfl
      | uniErr => rfl
      | bidiNone => rfl
      | bidiErr => rfl

lemma runLoop_stops : ∀ (pre : List FanInEvent) (e : FanInEvent)
    (post : List FanInEvent), stepArm e = none →
    runLoop (pre ++ e :: post) = runLoop (pre ++ [e]) := by
  intro pre
  induction pre with
  | nil =>
      intro e post hterm
      simp [runLoop, hterm]
  | cons p rest ih =>
      intro e post hterm
      have hrec := ih e post hterm
      cases h : stepArm p <;> simp [runLoop, h, hrec]

/-- C7. The session loop echoes datagrams as an identity transform: the
datagram send attempts it makes are exactly, in order, one per datagram
received before the loop breaks, each with a payload byte-for-byte equal to
the received payload; and a datagram is answered by exactly one send attempt
even when that send fails (no retry). -/
theorem spec_C7 (events : List FanInEvent) (d : List Nat) (failFlag : Bool)
    (rest : List FanInEvent) :
    (runLoop events).filterMap sentDatagramOf
      = (events.takeWhile continuesLoop).filterMap datagramPayloadOf
    ∧ runLoop (FanInEvent.datagramOk d failFlag :: rest)
      = SessionAction.sendDatagramAttempt d :: runLoop rest := by
  exact ⟨runLoop_datagrams events, rfl⟩

/-- C10. Once the fan-in loop has been entered (the welcome `open_bi`
succeeded), `handle_session` always returns a success result; an error or
terminal closure on any of the three fan-in sources only breaks the loop —
everything after the terminal event is ignored — and is never propagated as
an error result. -/
theorem spec_C10 (events pre post : List FanInEvent) (e : FanInEvent)
    (hterm : stepArm e = none) :
    handle_session false events = Except.ok (runLoop events)
    ∧ (handle_session false events).isOk = true
    ∧ handle_session false (pre ++ e :: post) = Except.ok (runLoop (pre ++ [e])) := by
  refine ⟨rfl, rfl, ?_⟩
  simp [handle_session, runLoop_stops pre e post hterm]

/-- Witness for C10: a session that echoes one datagram, then sees the bidi
acceptor close; the trailing datagram after the terminal event is ignored and
the session still ends in `Except.ok`. -/
theorem spec_C10_witness :
    handle_session false
        ([FanInEvent.datagramOk [7] false] ++ FanInEvent.bidiNone :: [FanInEvent.datagramOk [9] false])
      = Except.ok (runLoop [FanInEvent.datagramOk [7] false, FanInEvent.bidiNone]) := by
  exact (spec_C10 [] [FanInEvent.datagramOk [7] false] [FanInEvent.datagramOk [9] false]
    FanInEvent.bidiNone rfl).2.2

/-! ### Echo worker lemmas -/

lemma echo_bidi_eq : ∀ reads : List ReadResult,
    echo_bidi reads = (reads.takeWhile continuesRead).flatMap
      (fun r => [WriteEvent.write echoTagBytes, WriteEvent.write (readBytes r), WriteEvent.flush]) := by
  intro reads
  induction reads with
  | nil => rfl
  | cons r rest ih =>
      cases r with
      | ok bs =>
          cases bs with
          | nil => rfl
          | cons b bs2 =>
              simpa [echo_bidi, continuesRead, readBytes, List.takeWhile_cons] using ih
      | err => rfl

lemma echo_bidi_stops : ∀ (pre : List ReadResult) (r : ReadResult)
    (post : List ReadResult), continuesRead r = false →
    echo_bidi (pre ++ r :: post) = echo_bidi (pre ++ [r]) := by
  intro pre
  induction pre with
  | nil =>
      intro r post hr
      cases r with
      | ok bs =>
          cases bs with
          | nil => rfl
          | cons b bs2 => simp [continuesRead] at hr
      | err => rfl
  | cons p rest ih =>
      intro r post hr
      cases p with
      | ok bs =>
          cases bs with
          | nil => rfl
          | cons b bs2 =>
              have hrec := ih r post hr
              simp [echo_bidi, hrec]
      | err => rfl

/-- C8. For every accepted bidirectional sub-stream, the echo worker
writes, for each nonempty read of bytes `B` (each read bounded by the
4096-byte buffer), exactly `b"[echo] "` followed by `B` and a flush before
processing the next read — one write triple per read, no coalescing — and the
loop terminates exactly at the first zero-length read or read error,
ignoring anything after it.  The model covers a single stream, so
termination affects only that stream. -/
theorem spec_C8 (reads : List ReadResult)
    (hbound : ∀ r ∈ reads, readLen r ≤ 4096) :
    echo_bidi reads = (reads.takeWhile continuesRead).flatMap
      (fun r => [WriteEvent.write echoTagBytes, WriteEvent.write (readBytes r), WriteEvent.flush])
    ∧ (∀ (pre post : List ReadResult) (r : ReadResult), continuesRead r = false →
        echo_bidi (pre ++ r :: post) = echo_bidi (pre ++ [r])) := by
  exact ⟨echo_bidi_eq reads, fun pre post r hr => echo_bidi_stops pre r post hr⟩

/-- Witness for C8: two nonempty reads, then a zero-length read ending the
loop; the trailing read is never processed. -/
theorem spec_C8_witness :
    (∀ r ∈ [ReadResult.ok [1, 2], ReadResult.ok [3], ReadResult.ok [], ReadResult.ok [4]],
        readLen r ≤ 4096)
    ∧ echo_bidi [ReadResult.ok [1, 2], ReadResult.ok [3], ReadResult.ok [], ReadResult.ok [4]]
        = ([ReadResult.ok [1, 2], ReadResult.ok [3], ReadResult.ok [], ReadResult.ok [4]].takeWhile
              continuesRead).flatMap
            (fun r => [WriteEvent.write echoTagBytes, WriteEvent.write (readBytes r),
              WriteEvent.flush]) := by
  exact ⟨by decide, (spec_C8 _ (by decide)).1⟩

/-! ### Chunk replay lemmas -/

lemma chunksOf_eq_nil {γ : Type} (n : Nat) (l : List γ) :
    chunksOf n l = [] ↔ l = [] := by
  cases l <;> simp [chunksOf]

lemma chunksOf_flatten {γ : Type} (n : Nat) :
    ∀ (k : Nat) (l : List γ), l.length ≤ k → (chunksOf n l).flatten = l := by
  intro k
  induction k with
  | zero =>
      intro l hl
      have hnil : l = [] := List.length_eq_zero.mp (Nat.le_zero.mp hl)
      subst hnil
      simp [chunksOf]
  | succ k ih =>
      intro l hl
      cases l with
      | nil => simp [chunksOf]
      | cons x xs =>
          simp only [chunksOf, List.flatten_cons]
          rw [ih (xs.drop (n - 1)) (by simp at hl ⊢; omega)]
          simp [List.cons_append, List.take_append_drop]

lemma chunksOf_length_le {γ : Type} (n : Nat) (hn : 0 < n) :
    ∀ (k : Nat) (l : List γ), l.length ≤ k →
      ∀ c ∈ chunksOf n l, 0 < c.length ∧ c.length ≤ n := by
  intro k
  induction k with
  | zero =>
      intro l hl
      have hnil : l = [] := List.length_eq_zero.mp (Nat.le_zero.mp hl)
      subst hnil
      intro c hc
      simp [chunksOf] at hc
  | succ k ih =>
      intro l hl
      cases l with
      | nil => intro c hc; simp [chunksOf] at hc
      | cons x xs =>
          intro c hc
          simp only [chunksOf, List.mem_cons] at hc
          rcases hc with hc | hc
          · subst hc
            constructor
            · simp
            · simp only [List.length_cons, List.length_take]
              have := Nat.min_le_left (n - 1) xs.length
              omega
          · exact ih (xs.drop (n - 1)) (by simp at hl ⊢; omega) c hc

lemma chunksOf_dropLast_len {γ : Type} (n : Nat) (hn : 0 < n) :
    ∀ (k : Nat) (l : List γ), l.length ≤ k →
      ∀ c ∈ (chunksOf n l).dropLast, c.length = n := by
  intro k
  induction k with
  | zero =>
      intro l hl
      have hnil : l = [] := List.length_eq_zero.mp (Nat.le_zero.mp hl)
      subst hnil
      intro c hc
      simp [chunksOf] at hc
  | succ k ih =>
      intro l hl
      cases l with
      | nil => intro c hc; simp [chunksOf] at hc
      | cons x xs =>
          intro c hc
          simp only [chunksOf] at hc
          rcases hrest : chunksOf n (xs.drop (n - 1)) with _ | ⟨r, rs⟩
          · rw [hrest] at hc
            simp at hc
          · rw [hrest] at hc
            have hdropne : xs.drop (n - 1) ≠ [] := by
              intro hd
              rw [hd] at hrest
              simp [chunksOf] at hrest
            have hxslen : n - 1 ≤ xs.length := by
              by_contra hlt
              push_neg at hlt
              have : xs.drop (n - 1) = [] := List.drop_eq_nil_of_le (by omega)
              exact hdropne this
            simp only [List.dropLast_cons₂, List.mem_cons] at hc
            rcases hc with hc | hc
            · subst hc
              simp only [List.length_cons, List.length_take]
              omega
            · have := ih (xs.drop (n - 1)) (by simp at hl ⊢; omega) c
              rw [hrest] at this
              exact this hc

lemma replayChunks_map_snd : ∀ (cs : List (List Nat)) (t : Nat),
    (replayChunks t cs).map Prod.snd = cs := by
  intro cs
  induction cs with
  | nil => intro t; rfl
  | cons c rest ih => intro t; simp [replayChunks, ih]

lemma replayChunks_spaced : ∀ (cs : List (List Nat)) (t : Nat),
    spacedBy 10 ((replayChunks t cs).map Prod.fst) = true := by
  intro cs
  induction cs with
  | nil => intro t; rfl
  | cons c rest ih =>
      intro t
      cases rest with
      | nil => rfl
      | cons c2 rest2 =>
          have h2 := ih (t + 10)
          simp only [replayChunks, List.map_cons] at h2 ⊢
          simp only [spacedBy, Bool.and_eq_true]
          exact ⟨decide_eq_true (by omega), h2⟩

/-- C9. For every finite byte sequence `B` (including the empty one), the
uni echo worker replays exactly the 64-byte chunking of `B` in order — the
concatenation of the written chunks is `B`, every chunk is nonempty and at
most 64 bytes, every non-final chunk is exactly 64 bytes — and consecutive
chunk writes are 10 ms apart (a 10 ms sleep precedes each write). -/
theorem spec_C9 (b : List Nat) :
    (echo_uni b).map Prod.snd = chunksOf 64 b
    ∧ ((echo_uni b).map Prod.snd).flatten = b
    ∧ (∀ c ∈ (echo_uni b).map Prod.snd, 0 < c.length ∧ c.length ≤ 64)
    ∧ (∀ c ∈ ((echo_uni b).map Prod.snd).dropLast, c.length = 64)
    ∧ spacedBy 10 ((echo_uni b).map Prod.fst) = true := by
  have hsnd : (echo_uni b).map Prod.snd = chunksOf 64 b := replayChunks_map_snd _ 0
  refine ⟨hsnd, ?_, ?_, ?_, replayChunks_spaced _ 0⟩
  · rw [hsnd]
    exact chunksOf_flatten 64 b.length b le_rfl
  · rw [hsnd]
    exact chunksOf_length_le 64 (by omega) b.length b le_rfl
  · rw [hsnd]
    exact chunksOf_dropLast_len 64 (by omega) b.length b le_rfl

/-- Witness for C9 at a concrete 100-byte input spanning two chunks. -/
theorem spec_C9_witness :
    ((echo_uni (List.range 100)).map Prod.snd).flatten = List.range 100
    ∧ spacedBy 10 ((echo_uni (List.range 100)).map Prod.fst) = true := by
  exact ⟨(spec_C9 (List.range 100)).2.1, (spec_C9 (List.range 100)).2.2.2.2⟩

end Http3
